import Mathlib

/-!
# Chat relay: registry, router and command interpreter

A shallow embedding of `cmd/chat/chatServer.go` and `cmd/chat/utils.go`.

* A Go `string` is the list of its bytes; one `Char` stands for one byte.
* A `*client` is identified by its connection: the field `conn` is the
  identity under which the `clients` map keys the session.
* The `clients` map is a list of sessions; Go leaves the iteration order of a
  map unspecified, so no statement below depends on the order of that list.
* The goroutines are run one request at a time: each `case` of the `select`
  in `sendMessages` is a function on the server state, and one pass through
  the `ForLoop` of `handleClient` is a function of the line that was read.
* `fmt.Sprintf` applied to a configured template and the contents of the
  banner file come from outside the repository; they are the fields of `Host`.
-/

namespace Chat

/-- A Go string, as the list of its bytes. -/
abbrev Str := List Char

/-! ## The `strings` and `strconv` functions the server calls -/

/-- Go `strings.HasPrefix(s, pre)`. -/
def HasPrefix : Str → Str → Bool
  | _, [] => true
  | [], _ :: _ => false
  | c :: s, p :: ps => if c = p then HasPrefix s ps else false

/-- Position of the first occurrence of `sub` in `s`, if there is one. -/
def indexOf? : Str → Str → Option Nat
  | [], sub => if HasPrefix [] sub then some 0 else none
  | c :: s, sub =>
    if HasPrefix (c :: s) sub then some 0
    else match indexOf? s sub with
      | some i => some (i + 1)
      | none => none

/-- Go `strings.Index(s, sub)`: the first position of `sub` in `s`, or `-1`. -/
def Index (s sub : Str) : Int :=
  match indexOf? s sub with
  | some i => (i : Int)
  | none => -1

/-- Go slice expression `s[lo:hi]` on a string; `none` is the run-time panic
"slice bounds out of range". -/
def slice (s : Str) (lo hi : Int) : Option Str :=
  if 0 ≤ lo ∧ lo ≤ hi ∧ hi ≤ (s.length : Int) then
    some ((s.take hi.toNat).drop lo.toNat)
  else none

/-- Go `strings.Split(s, sep)` for a one-byte separator (the server only
splits on `" "`): the pieces between successive separators, never empty as a
list. -/
def Split : Str → Char → List Str
  | [], _ => [[]]
  | c :: s, sep =>
    if c = sep then [] :: Split s sep
    else match Split s sep with
      | [] => [[c]]
      | w :: ws => (c :: w) :: ws

/-- The first of `olds`, in argument order, that is not empty and is a prefix
of `s`. -/
def firstMatch : List Str → Str → Option Str
  | [], _ => none
  | o :: os, s => if o ≠ [] ∧ HasPrefix s o = true then some o else firstMatch os s

/-- Scanning loop of a Go `strings.Replacer` all of whose replacement values
are `""`; `skip` counts the bytes of the current match still to be dropped. -/
def Replace.go (olds : List Str) : Nat → Str → Str
  | _, [] => []
  | k + 1, _ :: s => Replace.go olds k s
  | 0, c :: s =>
    match firstMatch olds (c :: s) with
    | some o => Replace.go olds (o.length - 1) s
    | none => c :: Replace.go olds 0 s

/-- Go `strings.NewReplacer(o₁, "", o₂, "", …).Replace(s)`: one pass from left
to right; at each position the first `oᵢ` in argument order that matches is
removed and the scan resumes after it, the output is never rescanned, and an
empty `oᵢ` replaces nothing by nothing. -/
def Replace (olds : List Str) (s : Str) : Str := Replace.go olds 0 s

/-- Go `strconv.Itoa` on a non-negative `int`. -/
def Itoa (n : Nat) : Str := Nat.toDigits 10 n

/-- Go `a < b` on strings: bytewise lexicographic order. -/
def strLess : Str → Str → Bool
  | _, [] => false
  | [], _ :: _ => true
  | a :: s, b :: t =>
    if a.toNat < b.toNat then true
    else if b.toNat < a.toNat then false
    else strLess s t

/-- Insertion of one string into an ascending list, before the first element
that is greater. -/
def insertString (x : Str) : List Str → List Str
  | [] => [x]
  | y :: ys => if strLess y x then y :: insertString x ys else x :: y :: ys

/-- Go `sort.Strings`: the ascending rearrangement of the slice. Since `<` is
a strict total order on strings the result of any sorting algorithm is the
same list; it is computed here by insertion. -/
def sortStrings : List Str → List Str
  | [] => []
  | x :: xs => insertString x (sortStrings xs)

/-- Ascending order of a list of strings: no element is greater, under Go's
`<`, than a later one. -/
abbrev Ascending (l : List Str) : Prop :=
  l.Pairwise (fun a b => strLess b a = false)

/-- Go `strings.TrimSuffix(s, suf)`. -/
def TrimSuffix (s suf : Str) : Str :=
  if HasPrefix s.reverse suf.reverse then s.take (s.length - suf.length) else s

/-! ## utils.go -/

/-- StringInSlice looks up a string in a slice; the error is always `nil`. -/
def StringInSlice : List Str → Str → Bool × Option Str
  | [], _ => (false, none)
  | val :: s, srch => if val = srch then (true, none) else StringInSlice s srch

/-! ## chatServer.go: data -/

/-- Configuration read from `assets/config.json`. -/
structure Configuration where
  Port : Int
  Addr : Str
  Transport : Str
  CR : Str
  LF : Str
  CRLF : Str
  DefUsername : Str
  ChanOpSymbol : Str
  WhisperSymbol : Str
  HasConnectedMsg : Str
  HasDisconnectedMsg : Str
  InfoMsg : Str
  NormalMsg : Str
  UsernameMsg : Str
  WhisperMsg : Str
  FailedUsernameMsg : Str
  FailedwhisperMsg : Str
  UnrecognisedCommandMsg : Str
  AcceptedLog : Str
deriving DecidableEq

/-- The `message` struct: addressee or sender name, scope, text. -/
structure message where
  username : Str
  msgScope : Str
  text : Str
deriving DecidableEq

/-- The `client` struct; `conn` is the session's identity. -/
structure client where
  conn : Nat
  username : Str
deriving DecidableEq

/-- What the server takes from outside the repository: `fmt.Sprintf` on a
configured template with its arguments, and the bytes of the banner file
(taken to be readable, so that `getWelcome` returns). -/
structure Host where
  Sprintf : Str → List Str → Str
  banner : Str

/-- The `ChatServer` struct, without the listener and the channels. The
counter is a Go `int` that only ever grows from `0`. -/
structure ChatServer where
  conf : Configuration
  clients : List client
  clientCounter : Nat
deriving DecidableEq

/-- The three scope strings. -/
def ALL : Str := "ALL".toList

/-- Scope of a message for the sessions named `message.username` only. -/
def SENDERONLY : Str := "SENDERONLY".toList

/-- Scope of a message for every session not named `message.username`. -/
def ALLEXCEPTSENDER : Str := "ALLEXCEPTSENDER".toList

/-! ## chatServer.go: the registry and the router (`sendMessages`) -/

/-- The method `newMessage`: the text gets the configured terminator. -/
def newMessage (conf : Configuration) (toUsername scope text : Str) : message :=
  ⟨toUsername, scope, text ++ conf.CRLF⟩

/-- The delivery loop of `case m := <-s.messageChan` in `sendMessages`: the
sessions of the map for which `go s.sendString(c.conn, m.text)` is started. -/
def sendMessages.deliver : List client → message → List client
  | [], _ => []
  | c :: cs, m =>
    if m.msgScope = SENDERONLY then
      if c.username ≠ m.username then sendMessages.deliver cs m
      else c :: sendMessages.deliver cs m
    else if m.msgScope = ALLEXCEPTSENDER then
      if c.username = m.username then sendMessages.deliver cs m
      else c :: sendMessages.deliver cs m
    else c :: sendMessages.deliver cs m

/-- The loop of `case r := <-s.readAllUsernamesChan`: the usernames of the
map, which is what `readUsernamesFromClients` receives. -/
def readUsernamesFromClients : List client → List Str
  | [] => []
  | c :: cs => c.username :: readUsernamesFromClients cs

/-- The map update `s.clients[c] = struct{}{}`: a key already present stays. -/
def insertClient (clients : List client) (c : client) : List client :=
  if clients.any (fun x => x.conn = c.conn) then clients else clients ++ [c]

/-- The map update `delete(s.clients, c)`: removing an absent key does nothing. -/
def deleteClient (clients : List client) (c : client) : List client :=
  clients.filter (fun x => x.conn ≠ c.conn)

/-- The assignment `c.username = newUsername` seen from the map, whose key is
the pointer to the same struct. -/
def setUsername (clients : List client) (conn : Nat) (newUsername : Str) : List client :=
  clients.map (fun x => if x.conn = conn then { x with username := newUsername } else x)

/-- The branch `case c := <-s.writeClientsChan`: the session enters the map
and the join notice is put on the message channel. The second component lists
the messages put on the channel. -/
def sendMessages.write (h : Host) (s : ChatServer) (c : client) : ChatServer × List message :=
  ({ s with clients := insertClient s.clients c },
   [newMessage s.conf c.username ALL (h.Sprintf s.conf.HasConnectedMsg [c.username])])

/-- The branch `case c := <-s.deleteClientsChan`: the leave notice is put on
the message channel, then the session leaves the map. -/
def sendMessages.delete (h : Host) (s : ChatServer) (c : client) : ChatServer × List message :=
  ({ s with clients := deleteClient s.clients c },
   [newMessage s.conf c.username ALL (h.Sprintf s.conf.HasDisconnectedMsg [c.username])])

/-- The method `formatUserList`: sorts, lists the names each followed by
`", "`, trims the last `", "` and appends the total; the error is `nil`. The
two `fmt.Sprintf` calls have literal templates: `"%s, "` on a name is the name
followed by `", "`, and `"} Total:[%d]"` on the length is its decimal between
the brackets. -/
def formatUserList (usernames : List Str) : Str × Option Str :=
  let sorted := sortStrings usernames
  let ul := sorted.foldl (fun ul username => ul ++ (username ++ ", ".toList)) "UserList:\x7b".toList
  (TrimSuffix ul ", ".toList ++ ("\x7d Total:[".toList ++ Itoa usernames.length ++ "]".toList), none)

/-- The method `usernameInUse`. -/
def usernameInUse (clients : List client) (search : Str) : Bool × Option Str :=
  StringInSlice (readUsernamesFromClients clients) search

/-- The method `getWelcome`: the banner file followed by `"\r\n"`. -/
def getWelcome (h : Host) : Str := h.banner ++ "\r\n".toList

/-! ## chatServer.go: the command interpreter (`handleClient`) -/

/-- The line after `handleClient` has removed the terminators from it. -/
abbrev incomingOf (conf : Configuration) (text : Str) : Str :=
  Replace [conf.CR, conf.LF] text

/-- The name `handleClient` derives from the argument of `/username`. -/
abbrev requestedName (conf : Configuration) (arg : Str) : Str :=
  Replace [conf.CR, conf.LF, conf.DefUsername] arg

/-- How one pass through `ForLoop` ends: `break ForLoop`, or `continue` after
one send on the message channel; `assigned` is the value stored by
`c.username = newUsername` when the pass executes that assignment. -/
inductive Outcome where
  | terminate
  | routed (assigned : Option Str) (m : message)
deriving DecidableEq

/-- One pass through `ForLoop` of `handleClient` for the line `text` read by
the session `c`, against the map `clients`. `none` is a run-time panic of an
index or slice expression. -/
def handleLine (h : Host) (conf : Configuration) (clients : List client) (c : client)
    (text : Str) : Option Outcome :=
  let incoming := incomingOf conf text
  if HasPrefix incoming conf.ChanOpSymbol then
    let commands := Split incoming ' '
    match commands[0]? with
    | none => none
    | some cmd =>
      if cmd = "/bye".toList then some Outcome.terminate
      else if cmd = "/list".toList then
        let usernames := readUsernamesFromClients clients
        let ul := (formatUserList usernames).1
        some (Outcome.routed none (newMessage conf c.username SENDERONLY (h.Sprintf conf.InfoMsg [ul])))
      else if cmd = "/help".toList then
        some (Outcome.routed none
          (newMessage conf c.username SENDERONLY (h.Sprintf conf.InfoMsg [getWelcome h])))
      else if cmd = "/username".toList then
        match commands[1]? with
        | none => none
        | some arg =>
          let prevUsername := c.username
          let newUsername := requestedName conf arg
          if (usernameInUse clients newUsername).1 = false ∧ newUsername.length > 0
              ∧ Index newUsername conf.ChanOpSymbol = -1 then
            some (Outcome.routed (some newUsername)
              (newMessage conf newUsername ALL
                (h.Sprintf conf.UsernameMsg [prevUsername, newUsername])))
          else
            some (Outcome.routed none
              (newMessage conf c.username SENDERONLY
                (h.Sprintf conf.FailedUsernameMsg [prevUsername, newUsername])))
      else
        some (Outcome.routed none
          (newMessage conf c.username SENDERONLY
            (h.Sprintf conf.UnrecognisedCommandMsg [c.username, incoming])))
  else if HasPrefix incoming conf.WhisperSymbol then
    if Index incoming " ".toList > 1 ∧ incoming.length > 3 then
      match slice incoming 1 (Index incoming " ".toList),
            slice incoming (Index incoming " ".toList + 1) incoming.length with
      | some whisperToUser, some whisperMsg =>
        if (usernameInUse clients whisperToUser).1 = true then
          some (Outcome.routed none
            (newMessage conf whisperToUser SENDERONLY
              (h.Sprintf conf.WhisperMsg [c.username, whisperMsg])))
        else
          some (Outcome.routed none
            (newMessage conf c.username SENDERONLY
              (h.Sprintf conf.FailedwhisperMsg [whisperToUser])))
      | _, _ => none
    else
      some (Outcome.routed none
        (newMessage conf c.username SENDERONLY
          (h.Sprintf conf.UnrecognisedCommandMsg [c.username, incoming])))
  else
    some (Outcome.routed none
      (newMessage conf c.username ALLEXCEPTSENDER (h.Sprintf conf.NormalMsg [c.username, incoming])))

/-- The head of `handleClient`, up to `s.writeToClients(c)`: the session is
named `DefUsername` followed by the counter, the counter grows by one, and the
session is handed to the `writeClientsChan` branch. The banner that
`sendWelcome` then writes to the new connection does not pass through the
message channel and is left out. -/
def handleClient.accept (h : Host) (s : ChatServer) (conn : Nat) :
    ChatServer × client × List message :=
  let username := s.conf.DefUsername ++ Itoa s.clientCounter
  let s1 : ChatServer := { s with clientCounter := s.clientCounter + 1 }
  let c : client := ⟨conn, username⟩
  let r := sendMessages.write h s1 c
  (r.1, c, r.2)

/-- The tail of `handleClient` after the loop: `s.deleteFromClients(c)`, served
by the `deleteClientsChan` branch. The loop `for scanner.Scan()` is left by
`break ForLoop` and also when `Scan` returns false, at the end of the input or
on a read error, although the comment in the source names the `break` only. -/
def handleClient.leave (h : Host) (s : ChatServer) (c : client) :
    ChatServer × List message :=
  sendMessages.delete h s c

/-- One line read by the live session `c`, with its effect on the server and
the messages put on the message channel: after `break ForLoop` the session is
deleted; an assignment to `c.username` is seen by the map, which holds the
same pointer. -/
def handleClient.line (h : Host) (s : ChatServer) (c : client) (text : Str) :
    Option (ChatServer × List message) :=
  match handleLine h s.conf s.clients c text with
  | none => none
  | some Outcome.terminate => some (handleClient.leave h s c)
  | some (Outcome.routed none m) => some (s, [m])
  | some (Outcome.routed (some newUsername) m) =>
    some ({ s with clients := setUsername s.clients c.conn newUsername }, [m])

/-- What the server is given, one at a time: a new connection, a line read on
a connection, the end of a connection's input. -/
inductive Event where
  | connect (conn : Nat)
  | line (conn : Nat) (text : Str)
  | eof (conn : Nat)
deriving DecidableEq

/-- The session of the map with the given connection. -/
def findClient (clients : List client) (conn : Nat) : Option client :=
  clients.find? (fun x => x.conn = conn)

/-- The server's reaction to one event; `none` when a panic ends the process.
Events for a connection that has no live session are ignored. -/
def step (h : Host) (s : ChatServer) : Event → Option ChatServer
  | Event.connect conn => some (handleClient.accept h s conn).1
  | Event.line conn text =>
    match findClient s.clients conn with
    | none => some s
    | some c => (handleClient.line h s c text).map Prod.fst
  | Event.eof conn =>
    match findClient s.clients conn with
    | none => some s
    | some c => some (handleClient.leave h s c).1

/-- The server run over a sequence of events. -/
def run (h : Host) (s : ChatServer) : List Event → Option ChatServer
  | [] => some s
  | e :: es =>
    match step h s e with
    | none => none
    | some s1 => run h s1 es

/-- `NewChatServer`: an empty map and the counter at `0`. -/
def NewChatServer (conf : Configuration) : ChatServer := ⟨conf, [], 0⟩

/-- No two sessions of the map hold equal usernames. -/
abbrev uniqueUsernames (clients : List client) : Prop :=
  (readUsernamesFromClients clients).Nodup

/-- The three conditions under which the `/username` branch of `handleClient`
rejects the name `n`: some session of the map holds it, it is empty, or the
command symbol occurs in it. -/
def renameRejected (conf : Configuration) (clients : List client) (n : Str) : Prop :=
  (∃ x ∈ clients, x.username = n) ∨ n = [] ∨ conf.ChanOpSymbol <:+: n

/-! ## Sample configuration for concrete evaluations -/

/-- The `%s` verbs of a template replaced by the arguments in order. -/
def sprintfS : Str → List Str → Str
  | [], _ => []
  | [c], _ => [c]
  | '%' :: 's' :: t, a :: as => a ++ sprintfS t as
  | c :: d :: t, as => c :: sprintfS (d :: t) as

/-- A host for concrete evaluations. -/
def sampleHost : Host := ⟨sprintfS, "Welcome".toList⟩

/-- A configuration for concrete evaluations: `/` commands, `@` whispers,
default names `anonymous0`, `anonymous1`, … -/
def sampleConf : Configuration where
  Port := 6000
  Addr := []
  Transport := "tcp".toList
  CR := "\r".toList
  LF := "\n".toList
  CRLF := "\r\n".toList
  DefUsername := "anonymous".toList
  ChanOpSymbol := "/".toList
  WhisperSymbol := "@".toList
  HasConnectedMsg := "%s has connected".toList
  HasDisconnectedMsg := "%s has disconnected".toList
  InfoMsg := "%s".toList
  NormalMsg := "%s: %s".toList
  UsernameMsg := "%s is now %s".toList
  WhisperMsg := "%s whispers: %s".toList
  FailedUsernameMsg := "%s cannot become %s".toList
  FailedwhisperMsg := "%s is not here".toList
  UnrecognisedCommandMsg := "%s: unrecognised %s".toList
  AcceptedLog := "%s %s".toList

/-- The sample configuration with the two-byte whisper symbol `@@`. -/
def twoByteWhisperConf : Configuration := { sampleConf with WhisperSymbol := "@@".toList }

/-! ## Lemmas about the embedded functions -/

theorem readUsernames_eq_map (L : List client) :
    readUsernamesFromClients L = L.map client.username := by
  induction L with
  | nil => rfl
  | cons c cs ih => simp [readUsernamesFromClients, ih]

theorem stringInSlice_iff (l : List Str) (x : Str) :
    (StringInSlice l x).1 = true ↔ x ∈ l := by
  induction l with
  | nil => simp [StringInSlice]
  | cons v vs ih =>
    unfold StringInSlice
    by_cases hv : v = x
    · simp [hv]
    · simp [hv, ih, Ne.symm hv]

theorem stringInSlice_snd (l : List Str) (x : Str) : (StringInSlice l x).2 = none := by
  induction l with
  | nil => rfl
  | cons v vs ih =>
    unfold StringInSlice
    by_cases hv : v = x <;> simp [hv, ih]

theorem usernameInUse_iff (L : List client) (n : Str) :
    (usernameInUse L n).1 = true ↔ ∃ x ∈ L, x.username = n := by
  simp [usernameInUse, stringInSlice_iff, readUsernames_eq_map]

theorem usernameInUse_false_iff (L : List client) (n : Str) :
    (usernameInUse L n).1 = false ↔ ∀ x ∈ L, x.username ≠ n := by
  rw [← Bool.not_eq_true, usernameInUse_iff]
  simp

theorem deliver_all (L : List client) (m : message)
    (h1 : m.msgScope ≠ SENDERONLY) (h2 : m.msgScope ≠ ALLEXCEPTSENDER) :
    sendMessages.deliver L m = L := by
  induction L with
  | nil => rfl
  | cons c cs ih => simp [sendMessages.deliver, h1, h2, ih]

theorem deliver_senderOnly (L : List client) (m : message) (h1 : m.msgScope = SENDERONLY) :
    sendMessages.deliver L m = L.filter (fun c => c.username = m.username) := by
  induction L with
  | nil => rfl
  | cons c cs ih =>
    by_cases hc : c.username = m.username <;>
      simp [sendMessages.deliver, h1, ih, hc, List.filter_cons]

theorem deliver_allExceptSender (L : List client) (m : message)
    (h1 : m.msgScope = ALLEXCEPTSENDER) :
    sendMessages.deliver L m = L.filter (fun c => c.username ≠ m.username) := by
  have hne : ALLEXCEPTSENDER ≠ SENDERONLY := by decide
  induction L with
  | nil => rfl
  | cons c cs ih =>
    by_cases hc : c.username = m.username <;>
      simp [sendMessages.deliver, h1, hne, ih, hc, List.filter_cons]

/-- In a map with unique usernames the sessions named like the live session
`c` are `c` alone. -/
theorem filter_username_eq_singleton (L : List client) (c : client)
    (hu : uniqueUsernames L) (hc : c ∈ L) :
    L.filter (fun x => x.username = c.username) = [c] := by
  induction L with
  | nil => cases hc
  | cons d ds ih =>
    have hu' : d.username ∉ readUsernamesFromClients ds ∧ uniqueUsernames ds := by
      simpa [uniqueUsernames, readUsernamesFromClients] using hu
    have hnone : ∀ x ∈ ds, x.username ≠ d.username := by
      intro x hx hxd
      apply hu'.1
      rw [readUsernames_eq_map]
      exact List.mem_map.mpr ⟨x, hx, hxd⟩
    rcases List.mem_cons.mp hc with rfl | hcds
    · have : ds.filter (fun x => x.username = c.username) = [] := by
        rw [List.filter_eq_nil_iff]
        intro x hx
        simpa using hnone x hx
      simp [List.filter_cons, this]
    · have hdc : d.username ≠ c.username := fun e => hnone c hcds e.symm
      simp [List.filter_cons, hdc, ih hu'.2 hcds]

theorem filter_username_ne_length (L : List client) (u : Str) :
    (L.filter (fun x => x.username ≠ u)).length
      = L.length - (L.filter (fun x => x.username = u)).length := by
  induction L with
  | nil => rfl
  | cons d ds ih =>
    have hle : (ds.filter (fun x => decide (x.username = u))).length ≤ ds.length :=
      List.length_filter_le _ _
    by_cases hd : d.username = u
    · simp [List.filter_cons, hd] at ih ⊢
      omega
    · simp [List.filter_cons, hd] at ih ⊢
      omega

theorem hasPrefix_iff (s p : Str) : HasPrefix s p = true ↔ p <+: s := by
  induction p generalizing s with
  | nil => simp [HasPrefix]
  | cons a p ih =>
    cases s with
    | nil => simp [HasPrefix]
    | cons c s =>
      by_cases hca : c = a
      · subst hca
        simp [HasPrefix, ih, List.cons_prefix_cons]
      · have hac : ¬ a = c := fun e => hca e.symm
        simp [HasPrefix, hca, hac, List.cons_prefix_cons]

theorem indexOf?_eq_none_iff (s sub : Str) : indexOf? s sub = none ↔ ¬ sub <:+: s := by
  induction s with
  | nil =>
    cases sub with
    | nil => simp [indexOf?, HasPrefix]
    | cons a p => simp [indexOf?, HasPrefix]
  | cons c s ih =>
    rw [List.infix_cons_iff, indexOf?]
    by_cases hp : HasPrefix (c :: s) sub = true
    · simp [hp, (hasPrefix_iff _ _).mp hp]
    · have hp' : ¬ sub <+: c :: s := fun e => hp ((hasPrefix_iff _ _).mpr e)
      simp only [hp, hp', false_or, if_false, Bool.false_eq_true]
      rw [← ih]
      cases indexOf? s sub <;> simp

theorem index_eq_neg_one_iff (s sub : Str) : Index s sub = -1 ↔ ¬ sub <:+: s := by
  rw [← indexOf?_eq_none_iff, Index]
  cases indexOf? s sub with
  | none => simp
  | some i =>
    constructor
    · intro h
      have h1 : (i : Int) = -1 := h
      omega
    · intro h
      cases h

theorem indexOf?_char (x : Char) (pre rest : Str) (hx : x ∉ pre) :
    indexOf? (pre ++ x :: rest) [x] = some pre.length := by
  induction pre with
  | nil => simp [indexOf?, HasPrefix]
  | cons a pre ih =>
    have hax : a ≠ x := fun e => hx (by simp [e])
    have hx' : x ∉ pre := fun e => hx (List.mem_cons_of_mem _ e)
    simp [indexOf?, HasPrefix, hax, ih hx']

theorem index_char (x : Char) (pre rest : Str) (hx : x ∉ pre) :
    Index (pre ++ x :: rest) [x] = (pre.length : Int) := by
  simp [Index, indexOf?_char x pre rest hx]

theorem rename_guard_iff (conf : Configuration) (clients : List client) (n : Str) :
    ((usernameInUse clients n).1 = false ∧ n.length > 0 ∧ Index n conf.ChanOpSymbol = -1)
      ↔ ¬ renameRejected conf clients n := by
  rw [usernameInUse_false_iff, index_eq_neg_one_iff, renameRejected]
  have hlen : n.length > 0 ↔ n ≠ [] := by
    cases n <;> simp
  rw [hlen]
  constructor
  · rintro ⟨h1, h2, h3⟩ (⟨x, hx, hxn⟩ | h | h)
    · exact h1 x hx hxn
    · exact h2 h
    · exact h3 h
  · intro hr
    exact ⟨fun x hx hxn => hr (Or.inl ⟨x, hx, hxn⟩), fun e => hr (Or.inr (Or.inl e)),
      fun e => hr (Or.inr (Or.inr e))⟩

theorem handleLine_username (h : Host) (conf : Configuration) (clients : List client)
    (c : client) (text arg : Str) (rest : List Str)
    (hpre : HasPrefix (incomingOf conf text) conf.ChanOpSymbol = true)
    (hcmd : Split (incomingOf conf text) ' ' = "/username".toList :: arg :: rest) :
    handleLine h conf clients c text =
      if (usernameInUse clients (requestedName conf arg)).1 = false
          ∧ (requestedName conf arg).length > 0
          ∧ Index (requestedName conf arg) conf.ChanOpSymbol = -1 then
        some (Outcome.routed (some (requestedName conf arg))
          (newMessage conf (requestedName conf arg) ALL
            (h.Sprintf conf.UsernameMsg [c.username, requestedName conf arg])))
      else
        some (Outcome.routed none
          (newMessage conf c.username SENDERONLY
            (h.Sprintf conf.FailedUsernameMsg [c.username, requestedName conf arg]))) := by
  have h1 : ¬ "/username".toList = "/bye".toList := by decide
  have h2 : ¬ "/username".toList = "/list".toList := by decide
  have h3 : ¬ "/username".toList = "/help".toList := by decide
  unfold handleLine
  simp only [hpre, hcmd, if_true, List.getElem?_cons_zero, List.getElem?_cons_succ, h1, h2, h3,
    if_false]

theorem handleLine_bye (h : Host) (conf : Configuration) (clients : List client)
    (c : client) (text : Str) (rest : List Str)
    (hpre : HasPrefix (incomingOf conf text) conf.ChanOpSymbol = true)
    (hcmd : Split (incomingOf conf text) ' ' = "/bye".toList :: rest) :
    handleLine h conf clients c text = some Outcome.terminate := by
  unfold handleLine
  simp only [hpre, hcmd, if_true, List.getElem?_cons_zero]

theorem handleClient_line_rejected (h : Host) (s : ChatServer) (c : client) (text arg : Str)
    (rest : List Str)
    (hpre : HasPrefix (incomingOf s.conf text) s.conf.ChanOpSymbol = true)
    (hcmd : Split (incomingOf s.conf text) ' ' = "/username".toList :: arg :: rest)
    (hrej : renameRejected s.conf s.clients (requestedName s.conf arg)) :
    handleClient.line h s c text =
      some (s, [newMessage s.conf c.username SENDERONLY
        (h.Sprintf s.conf.FailedUsernameMsg [c.username, requestedName s.conf arg])]) := by
  have hg := (rename_guard_iff s.conf s.clients (requestedName s.conf arg)).not.mpr
    (not_not.mpr hrej)
  rw [handleClient.line, handleLine_username h s.conf s.clients c text arg rest hpre hcmd,
    if_neg hg]

theorem handleClient_line_renamed (h : Host) (s : ChatServer) (c : client) (text arg : Str)
    (rest : List Str)
    (hpre : HasPrefix (incomingOf s.conf text) s.conf.ChanOpSymbol = true)
    (hcmd : Split (incomingOf s.conf text) ' ' = "/username".toList :: arg :: rest)
    (hok : ¬ renameRejected s.conf s.clients (requestedName s.conf arg)) :
    handleClient.line h s c text =
      some ({ s with clients := setUsername s.clients c.conn (requestedName s.conf arg) },
        [newMessage s.conf (requestedName s.conf arg) ALL
          (h.Sprintf s.conf.UsernameMsg [c.username, requestedName s.conf arg])]) := by
  have hg := (rename_guard_iff s.conf s.clients (requestedName s.conf arg)).mpr hok
  rw [handleClient.line, handleLine_username h s.conf s.clients c text arg rest hpre hcmd,
    if_pos hg]

theorem mem_setUsername_self (L : List client) (c : client) (n : Str) (hc : c ∈ L) :
    (⟨c.conn, n⟩ : client) ∈ setUsername L c.conn n := by
  rw [setUsername, List.mem_map]
  exact ⟨c, hc, by simp⟩

theorem mem_setUsername_other (L : List client) (conn : Nat) (n : Str) (x : client)
    (hx : x ∈ L) (hne : x.conn ≠ conn) : x ∈ setUsername L conn n := by
  rw [setUsername, List.mem_map]
  exact ⟨x, hx, by simp [hne]⟩

theorem slice_target (w : Char) (t b : Str) :
    slice (w :: (t ++ ' ' :: b)) 1 ((w :: t).length : Int) = some t := by
  have h1 : (1 : Int) ≤ ((t.length + 1 : Nat) : Int) := by omega
  have h2 : ((t.length + 1 : Nat) : Int) ≤ ((t.length + (b.length + 1) + 1 : Nat) : Int) := by
    omega
  simp only [slice, List.length_cons, List.length_append]
  rw [if_pos ⟨by omega, h1, h2⟩]
  simp

theorem slice_body (w : Char) (t b : Str) :
    slice (w :: (t ++ ' ' :: b)) (((w :: t).length : Int) + 1)
      ((w :: (t ++ ' ' :: b)).length : Int) = some b := by
  have h1 : (0 : Int) ≤ ((t.length + 1 : Nat) : Int) + 1 := by omega
  have h2 : ((t.length + 1 : Nat) : Int) + 1 ≤ ((t.length + (b.length + 1) + 1 : Nat) : Int) := by
    omega
  simp only [slice, List.length_cons, List.length_append]
  rw [if_pos ⟨h1, h2, le_refl _⟩]
  have e1 : (((t.length + 1 : Nat) : Int) + 1).toNat = t.length + 2 := by omega
  have e2 : (((t.length + (b.length + 1) + 1 : Nat) : Int)).toNat
      = (w :: (t ++ ' ' :: b)).length := by
    simp only [List.length_cons, List.length_append]
    omega
  rw [e1, e2, List.take_length]
  have : w :: (t ++ ' ' :: b) = (w :: t ++ [' ']) ++ b := by simp
  rw [this, List.drop_left']
  simp

/-- The whisper branch of `handleLine` on a line that reads: one byte other
than the space, the target `t` without a space, a space, the body `b`. -/
theorem handleLine_whisper (h : Host) (conf : Configuration) (clients : List client)
    (c : client) (text : Str) (w : Char) (t b : Str)
    (hcmd : HasPrefix (incomingOf conf text) conf.ChanOpSymbol = false)
    (hw : HasPrefix (incomingOf conf text) conf.WhisperSymbol = true)
    (hline : incomingOf conf text = w :: (t ++ ' ' :: b))
    (hwsp : w ≠ ' ') (ht : t ≠ []) (hts : ' ' ∉ t) (hb : b ≠ []) :
    handleLine h conf clients c text =
      if (usernameInUse clients t).1 = true then
        some (Outcome.routed none
          (newMessage conf t SENDERONLY (h.Sprintf conf.WhisperMsg [c.username, b])))
      else
        some (Outcome.routed none
          (newMessage conf c.username SENDERONLY (h.Sprintf conf.FailedwhisperMsg [t]))) := by
  have hnot : ' ' ∉ w :: t := by
    intro hm
    rcases List.mem_cons.mp hm with e | e
    · exact hwsp e.symm
    · exact hts e
  have hidx : Index (w :: (t ++ ' ' :: b)) " ".toList = ((w :: t).length : Int) := by
    have := index_char ' ' (w :: t) b hnot
    simpa using this
  have htl : 0 < t.length := List.length_pos.mpr ht
  have hbl : 0 < b.length := List.length_pos.mpr hb
  have hshape : Index (w :: (t ++ ' ' :: b)) " ".toList > 1
      ∧ (w :: (t ++ ' ' :: b)).length > 3 := by
    rw [hidx]
    simp only [List.length_cons, List.length_append]
    constructor <;> omega
  unfold handleLine
  simp only [hcmd, hw, if_true, if_false, Bool.false_eq_true]
  rw [hline, if_pos hshape, hidx, slice_target, slice_body]

theorem char_eq_of_toNat (a b : Char) (h1 : ¬ a.toNat < b.toNat) (h2 : ¬ b.toNat < a.toNat) :
    a = b := by
  have e : a.toNat = b.toNat := by omega
  rw [← Char.ofNat_toNat a, ← Char.ofNat_toNat b, e]

theorem strLess_asymm (a b : Str) : strLess a b = true → strLess b a = false := by
  induction a generalizing b with
  | nil => cases b <;> simp [strLess]
  | cons x a ih =>
    cases b with
    | nil => simp [strLess]
    | cons y b =>
      unfold strLess
      by_cases h1 : x.toNat < y.toNat
      · have h2 : ¬ y.toNat < x.toNat := by omega
        simp [h1, h2]
      · by_cases h2 : y.toNat < x.toNat
        · simp [h1, h2]
        · simpa [h1, h2] using ih b

theorem strLess_antisymm (a b : Str) :
    strLess b a = false → strLess a b = false → a = b := by
  induction a generalizing b with
  | nil => cases b <;> simp [strLess]
  | cons x a ih =>
    cases b with
    | nil => simp [strLess]
    | cons y b =>
      unfold strLess
      by_cases h1 : x.toNat < y.toNat
      · have h2 : ¬ y.toNat < x.toNat := by omega
        simp [h1, h2]
      · by_cases h2 : y.toNat < x.toNat
        · simp [h1, h2]
        · simp only [h1, h2, if_false]
          intro e1 e2
          rw [char_eq_of_toNat x y h1 h2, ih b e1 e2]

theorem strLess_le_trans (a b c : Str) :
    strLess b a = false → strLess c b = false → strLess c a = false := by
  induction a generalizing b c with
  | nil =>
    cases b with
    | nil => simp
    | cons y b => simp [strLess]
  | cons x a ih =>
    cases b with
    | nil =>
      cases c with
      | nil => simp [strLess]
      | cons z c => simp [strLess]
    | cons y b =>
      cases c with
      | nil => simp [strLess]
      | cons z c =>
        unfold strLess
        by_cases h1 : y.toNat < x.toNat
        · simp [h1]
        · by_cases h2 : x.toNat < y.toNat
          · by_cases h3 : z.toNat < y.toNat
            · simp [h3]
            · by_cases h4 : y.toNat < z.toNat
              · have h5 : ¬ z.toNat < x.toNat := by omega
                have h6 : x.toNat < z.toNat := by omega
                simp [h5, h6]
              · have h5 : ¬ z.toNat < x.toNat := by omega
                have h6 : x.toNat < z.toNat := by omega
                simp [h5, h6]
          · by_cases h3 : z.toNat < y.toNat
            · simp [h3]
            · by_cases h4 : y.toNat < z.toNat
              · have h5 : ¬ z.toNat < x.toNat := by omega
                have h6 : x.toNat < z.toNat := by omega
                simp [h5, h6]
              · have h5 : ¬ z.toNat < x.toNat := by omega
                have h6 : ¬ x.toNat < z.toNat := by omega
                simp only [h1, h2, h3, h4, h5, h6, if_false]
                exact ih b c

theorem insertString_perm (x : Str) (l : List Str) : (insertString x l).Perm (x :: l) := by
  induction l with
  | nil => exact List.Perm.refl _
  | cons y ys ih =>
    unfold insertString
    by_cases h : strLess y x = true
    · rw [if_pos h]
      exact (List.Perm.cons y ih).trans (List.Perm.swap x y ys)
    · rw [if_neg h]

theorem insertString_ascending (x : Str) (l : List Str) (hl : Ascending l) :
    Ascending (insertString x l) := by
  induction l with
  | nil => simp [insertString, Ascending]
  | cons y ys ih =>
    have hy : ∀ z ∈ ys, strLess z y = false := (List.pairwise_cons.mp hl).1
    have hys : Ascending ys := (List.pairwise_cons.mp hl).2
    unfold insertString
    by_cases h : strLess y x = true
    · rw [if_pos h]
      refine List.pairwise_cons.mpr ⟨?_, ih hys⟩
      intro z hz
      rcases List.mem_cons.mp ((insertString_perm x ys).mem_iff.mp hz) with e | e
      · rw [e]
        exact strLess_asymm y x h
      · exact hy z e
    · rw [if_neg h]
      have h' : strLess y x = false := by simpa using h
      refine List.pairwise_cons.mpr ⟨?_, hl⟩
      intro z hz
      rcases List.mem_cons.mp hz with e | e
      · rw [e]
        exact h'
      · exact strLess_le_trans x y z h' (hy z e)

theorem sortStrings_perm (l : List Str) : (sortStrings l).Perm l := by
  induction l with
  | nil => exact List.Perm.refl _
  | cons x xs ih => exact (insertString_perm x _).trans (List.Perm.cons x ih)

theorem sortStrings_ascending (l : List Str) : Ascending (sortStrings l) := by
  induction l with
  | nil => simp [sortStrings, Ascending]
  | cons x xs ih => exact insertString_ascending x _ ih

theorem ascending_unique (l1 l2 : List Str) (hp : l1.Perm l2) (h1 : Ascending l1)
    (h2 : Ascending l2) : l1 = l2 := by
  haveI : IsAntisymm Str (fun a b => strLess b a = false) :=
    ⟨fun a b hab hba => strLess_antisymm a b hab hba⟩
  exact List.eq_of_perm_of_sorted hp h1 h2

theorem sortStrings_of_perm (l1 l2 : List Str) (hp : l1.Perm l2) :
    sortStrings l1 = sortStrings l2 :=
  ascending_unique _ _ (((sortStrings_perm l1).trans hp).trans (sortStrings_perm l2).symm)
    (sortStrings_ascending l1) (sortStrings_ascending l2)

theorem foldl_append_names (sep init : Str) (l : List Str) :
    l.foldl (fun ul username => ul ++ (username ++ sep)) init
      = init ++ (l.map (fun u => u ++ sep)).flatten := by
  induction l generalizing init with
  | nil => simp
  | cons x xs ih => simp [ih, List.append_assoc]

theorem flatten_map_append_sep (sep x : Str) (xs : List Str) :
    ((x :: xs).map (fun u => u ++ sep)).flatten = List.intercalate sep (x :: xs) ++ sep := by
  induction xs generalizing x with
  | nil => simp [List.intercalate]
  | cons y ys ih =>
    have := ih y
    simp only [List.map_cons, List.flatten_cons] at this ⊢
    rw [this]
    simp [List.intercalate, List.append_assoc]

theorem trimSuffix_append (a suf : Str) : TrimSuffix (a ++ suf) suf = a := by
  have hp : HasPrefix (a ++ suf).reverse suf.reverse = true := by
    rw [hasPrefix_iff, List.reverse_append]
    exact List.prefix_append _ _
  rw [TrimSuffix, if_pos hp]
  simp

theorem split_ne_nil (s : Str) (sep : Char) : Split s sep ≠ [] := by
  induction s with
  | nil => simp [Split]
  | cons c s ih =>
    unfold Split
    by_cases hc : c = sep
    · simp [hc]
    · rw [if_neg hc]
      cases hs : Split s sep with
      | nil => exact absurd hs ih
      | cons w ws => simp

theorem indexOf?_char_lt (x : Char) (s : Str) (i : Nat) (hi : indexOf? s [x] = some i) :
    i < s.length := by
  induction s generalizing i with
  | nil => simp [indexOf?, HasPrefix] at hi
  | cons c s ih =>
    unfold indexOf? at hi
    by_cases hp : HasPrefix (c :: s) [x] = true
    · rw [if_pos hp] at hi
      cases hi
      simp
    · rw [if_neg hp] at hi
      cases hj : indexOf? s [x] with
      | none => simp [hj] at hi
      | some j =>
        simp only [hj, Option.some.injEq] at hi
        have := ih j hj
        simp only [List.length_cons]
        omega

theorem slices_defined (s : Str) (hidx : Index s " ".toList > 1) :
    ∃ t b, slice s 1 (Index s " ".toList) = some t
      ∧ slice s (Index s " ".toList + 1) s.length = some b := by
  have hsp : " ".toList = [' '] := rfl
  rw [hsp] at hidx ⊢
  unfold Index at hidx ⊢
  cases hi : indexOf? s [' '] with
  | none =>
    rw [hi] at hidx
    exact absurd hidx (by decide)
  | some i =>
    rw [hi] at hidx
    have hlt := indexOf?_char_lt ' ' s i hi
    have h1 : (1 : Int) < (i : Int) := hidx
    refine ⟨(s.take (i : Int).toNat).drop (1 : Int).toNat,
      (s.take (s.length : Int).toNat).drop ((i : Int) + 1).toNat, ?_, ?_⟩
    · show slice s 1 (i : Int) = _
      simp only [slice]
      rw [if_pos ⟨by omega, by omega, by omega⟩]
    · show slice s ((i : Int) + 1) s.length = _
      simp only [slice]
      rw [if_pos ⟨by omega, by omega, le_refl _⟩]

/-- The only lines on which a pass through `ForLoop` panics are the command
lines whose single token is `/username`. -/
theorem handleLine_eq_none_iff (h : Host) (conf : Configuration) (clients : List client)
    (c : client) (text : Str) :
    handleLine h conf clients c text = none
      ↔ HasPrefix (incomingOf conf text) conf.ChanOpSymbol = true
        ∧ Split (incomingOf conf text) ' ' = ["/username".toList] := by
  unfold handleLine
  by_cases hpre : HasPrefix (incomingOf conf text) conf.ChanOpSymbol = true
  · simp only [hpre, if_true, true_and]
    cases hs : Split (incomingOf conf text) ' ' with
    | nil => exact absurd hs (split_ne_nil _ _)
    | cons cmd rest =>
      simp only [List.getElem?_cons_zero]
      by_cases h1 : cmd = "/bye".toList
      · have : ¬ "/bye".toList = "/username".toList := by decide
        simp [h1, this]
      · by_cases h2 : cmd = "/list".toList
        · have : ¬ "/list".toList = "/username".toList := by decide
          simp [h1, h2, this]
        · by_cases h3 : cmd = "/help".toList
          · have : ¬ "/help".toList = "/username".toList := by decide
            simp [h1, h2, h3, this]
          · by_cases h4 : cmd = "/username".toList
            · subst h4
              simp only [h1, h2, h3, if_false, if_true]
              cases rest with
              | nil => simp
              | cons arg rest1 =>
                simp only [List.getElem?_cons_succ, List.getElem?_cons_zero]
                split <;> simp
            · rw [if_neg h1, if_neg h2, if_neg h3, if_neg h4]
              constructor
              · intro e
                cases e
              · intro e
                exact absurd (List.cons.inj e).1 h4
  · have hpre' : HasPrefix (incomingOf conf text) conf.ChanOpSymbol = false := by
      simpa using hpre
    simp only [hpre', if_false, Bool.false_eq_true, false_and, iff_false]
    by_cases hw : HasPrefix (incomingOf conf text) conf.WhisperSymbol = true
    · simp only [hw, if_true]
      by_cases hshape : Index (incomingOf conf text) " ".toList > 1
          ∧ (incomingOf conf text).length > 3
      · rw [if_pos hshape]
        obtain ⟨t, b, ht, hb⟩ := slices_defined (incomingOf conf text) hshape.1
        rw [ht, hb]
        simp only
        split <;> simp
      · rw [if_neg hshape]
        simp
    · simp [hw]

/-! ## The claims -/

/-- C1 fails on the code. With default names `anonymous<k>`, the first
session asks for `anonanonymousymous1`; the single pass that removes
`anonymous` from the request leaves `anonymous1`, which nobody holds yet, so
the rename is accepted; the next connection is then named `anonymous1` as
well, and two live sessions hold the same username. -/
theorem default_name_collision :
    requestedName sampleConf "anonanonymousymous1".toList = "anonymous1".toList
    ∧ run sampleHost (NewChatServer sampleConf)
        [Event.connect 0, Event.line 0 "/username anonanonymousymous1".toList]
      = some ⟨sampleConf, [⟨0, "anonymous1".toList⟩], 1⟩
    ∧ run sampleHost (NewChatServer sampleConf)
        [Event.connect 0,
         Event.line 0 "/username anonanonymousymous1".toList,
         Event.connect 1]
      = some ⟨sampleConf, [⟨0, "anonymous1".toList⟩, ⟨1, "anonymous1".toList⟩], 2⟩
    ∧ ¬ uniqueUsernames [⟨0, "anonymous1".toList⟩, ⟨1, "anonymous1".toList⟩] := by
  decide

/-- C2 as stated fails. Amy asks for the name she already holds: no other
session holds it, it is not empty and it does not begin with `/`, yet the
rename is rejected. She then asks for `a/b`, which nobody holds and which does
not begin with `/`: rejected as well, since `/` occurs in it. -/
theorem rename_rejected_beyond_claim :
    handleClient.line sampleHost
        ⟨sampleConf, [⟨0, "amy".toList⟩, ⟨1, "bob".toList⟩], 2⟩ ⟨0, "amy".toList⟩
        "/username amy".toList
      = some (⟨sampleConf, [⟨0, "amy".toList⟩, ⟨1, "bob".toList⟩], 2⟩,
          [⟨"amy".toList, SENDERONLY, "amy cannot become amy\r\n".toList⟩])
    ∧ requestedName sampleConf "amy".toList = "amy".toList
    ∧ (¬ ∃ x ∈ [(⟨0, "amy".toList⟩ : client), ⟨1, "bob".toList⟩],
          x.conn ≠ 0 ∧ x.username = "amy".toList)
    ∧ HasPrefix "amy".toList sampleConf.ChanOpSymbol = false
    ∧ handleClient.line sampleHost
        ⟨sampleConf, [⟨0, "amy".toList⟩, ⟨1, "bob".toList⟩], 2⟩ ⟨0, "amy".toList⟩
        "/username a/b".toList
      = some (⟨sampleConf, [⟨0, "amy".toList⟩, ⟨1, "bob".toList⟩], 2⟩,
          [⟨"amy".toList, SENDERONLY, "amy cannot become a/b\r\n".toList⟩])
    ∧ requestedName sampleConf "a/b".toList = "a/b".toList
    ∧ (¬ ∃ x ∈ [(⟨0, "amy".toList⟩ : client), ⟨1, "bob".toList⟩],
          x.username = "a/b".toList)
    ∧ HasPrefix "a/b".toList sampleConf.ChanOpSymbol = false := by
  decide

/-- C2, amended. For a live session `c` and a `/username` line whose argument
is stripped to the name `n`, the rename fails exactly when some live session
(the requester included) already holds `n`, or `n` is empty, or the command
symbol occurs anywhere in `n`; the failure leaves the server unchanged and
emits one `SENDERONLY` notice. In every other case it succeeds: `c` is in the
map under the name `n`, the other sessions are untouched, and one `ALL`-scope
announcement built from the old and the new username is emitted. -/
theorem rename_outcome (h : Host) (s : ChatServer) (c : client) (text arg : Str)
    (rest : List Str) (hc : c ∈ s.clients)
    (hpre : HasPrefix (incomingOf s.conf text) s.conf.ChanOpSymbol = true)
    (hcmd : Split (incomingOf s.conf text) ' ' = "/username".toList :: arg :: rest) :
    (((∃ x ∈ s.clients, x.username = requestedName s.conf arg)
        ∨ requestedName s.conf arg = []
        ∨ s.conf.ChanOpSymbol <:+: requestedName s.conf arg)
      ↔ handleClient.line h s c text =
          some (s, [newMessage s.conf c.username SENDERONLY
            (h.Sprintf s.conf.FailedUsernameMsg [c.username, requestedName s.conf arg])]))
    ∧ (¬ ((∃ x ∈ s.clients, x.username = requestedName s.conf arg)
        ∨ requestedName s.conf arg = []
        ∨ s.conf.ChanOpSymbol <:+: requestedName s.conf arg)
      → handleClient.line h s c text =
          some ({ s with clients := setUsername s.clients c.conn (requestedName s.conf arg) },
            [newMessage s.conf (requestedName s.conf arg) ALL
              (h.Sprintf s.conf.UsernameMsg [c.username, requestedName s.conf arg])])
        ∧ (⟨c.conn, requestedName s.conf arg⟩ : client)
            ∈ setUsername s.clients c.conn (requestedName s.conf arg)
        ∧ ∀ x ∈ s.clients, x.conn ≠ c.conn →
            x ∈ setUsername s.clients c.conn (requestedName s.conf arg)) := by
  constructor
  · constructor
    · intro hrej
      exact handleClient_line_rejected h s c text arg rest hpre hcmd hrej
    · intro hfail
      by_contra hok
      rw [handleClient_line_renamed h s c text arg rest hpre hcmd hok] at hfail
      have hscope : ALL = SENDERONLY := by
        have := congrArg (fun r => r.map (fun p => p.2.map message.msgScope)) hfail
        simpa [newMessage] using this
      exact absurd hscope (by decide)
  · intro hok
    exact ⟨handleClient_line_renamed h s c text arg rest hpre hcmd hok,
      mem_setUsername_self _ _ _ hc, fun x hx hne => mem_setUsername_other _ _ _ x hx hne⟩

/-- C2 amended, at a concrete map: amy asks for `zoe`, which is free, and is
renamed; the announcement names both usernames. -/
theorem rename_outcome_witness :
    handleClient.line sampleHost
        ⟨sampleConf, [⟨0, "amy".toList⟩, ⟨1, "bob".toList⟩], 2⟩ ⟨0, "amy".toList⟩
        "/username zoe".toList
      = some (⟨sampleConf, [⟨0, "zoe".toList⟩, ⟨1, "bob".toList⟩], 2⟩,
          [⟨"zoe".toList, ALL, "amy is now zoe\r\n".toList⟩]) :=
  ((rename_outcome sampleHost ⟨sampleConf, [⟨0, "amy".toList⟩, ⟨1, "bob".toList⟩], 2⟩
      ⟨0, "amy".toList⟩ "/username zoe".toList "zoe".toList [] (by decide) (by decide)
      (by decide)).2 (by decide)).1.trans (by decide)

/-- C3. Rename failure is atomic: with unique usernames, when the `/username`
request of the live session `c` is rejected (the name is held by a live
session, or is empty, or contains the command symbol) the server state, and so
every username and the live set, is unchanged, and the only message emitted is
one `SENDERONLY` failure notice, which the router writes to `c` alone. -/
theorem rename_failure_atomic (h : Host) (s : ChatServer) (c : client) (text arg : Str)
    (rest : List Str) (hu : uniqueUsernames s.clients) (hc : c ∈ s.clients)
    (hpre : HasPrefix (incomingOf s.conf text) s.conf.ChanOpSymbol = true)
    (hcmd : Split (incomingOf s.conf text) ' ' = "/username".toList :: arg :: rest)
    (hrej : (∃ x ∈ s.clients, x.username = requestedName s.conf arg)
        ∨ requestedName s.conf arg = []
        ∨ s.conf.ChanOpSymbol <:+: requestedName s.conf arg) :
    handleClient.line h s c text =
        some (s, [newMessage s.conf c.username SENDERONLY
          (h.Sprintf s.conf.FailedUsernameMsg [c.username, requestedName s.conf arg])])
    ∧ sendMessages.deliver s.clients
        (newMessage s.conf c.username SENDERONLY
          (h.Sprintf s.conf.FailedUsernameMsg [c.username, requestedName s.conf arg]))
      = [c] := by
  refine ⟨handleClient_line_rejected h s c text arg rest hpre hcmd hrej, ?_⟩
  rw [deliver_senderOnly _ _ rfl]
  exact filter_username_eq_singleton s.clients c hu hc

/-- C3, at a concrete map: amy asks for bob's name; nothing changes and the
notice goes to amy alone. -/
theorem rename_failure_atomic_witness :
    handleClient.line sampleHost
        ⟨sampleConf, [⟨0, "amy".toList⟩, ⟨1, "bob".toList⟩], 2⟩ ⟨0, "amy".toList⟩
        "/username bob".toList
      = some (⟨sampleConf, [⟨0, "amy".toList⟩, ⟨1, "bob".toList⟩], 2⟩,
          [⟨"amy".toList, SENDERONLY, "amy cannot become bob\r\n".toList⟩])
    ∧ sendMessages.deliver [⟨0, "amy".toList⟩, ⟨1, "bob".toList⟩]
        ⟨"amy".toList, SENDERONLY, "amy cannot become bob\r\n".toList⟩
      = [⟨0, "amy".toList⟩] :=
  rename_failure_atomic sampleHost ⟨sampleConf, [⟨0, "amy".toList⟩, ⟨1, "bob".toList⟩], 2⟩
    ⟨0, "amy".toList⟩ "/username bob".toList "bob".toList [] (by decide) (by decide)
    (by decide) (by decide) (Or.inl ⟨⟨1, "bob".toList⟩, by decide, by decide⟩)

/-- C4. Scope correctness of the router: the delivery loop of `sendMessages`
writes to every session of the map for scope `ALL`, to exactly the sessions
whose username equals `m.username` for `SENDERONLY`, and to exactly the
sessions whose username differs from `m.username` for `ALLEXCEPTSENDER`. When
usernames are unique and some live session holds `m.username`, `SENDERONLY`
reaches one session and `ALLEXCEPTSENDER` reaches all but one; `SENDERONLY`
reaches nobody when no live session holds `m.username`. -/
theorem router_scope_correct (L : List client) (m : message) :
    (m.msgScope = ALL → sendMessages.deliver L m = L)
    ∧ (m.msgScope = SENDERONLY →
        sendMessages.deliver L m = L.filter (fun c => c.username = m.username))
    ∧ (m.msgScope = ALLEXCEPTSENDER →
        sendMessages.deliver L m = L.filter (fun c => c.username ≠ m.username))
    ∧ (uniqueUsernames L → (∃ c ∈ L, c.username = m.username) →
        (m.msgScope = SENDERONLY → (sendMessages.deliver L m).length = 1)
        ∧ (m.msgScope = ALLEXCEPTSENDER →
            (sendMessages.deliver L m).length = L.length - 1))
    ∧ ((∀ c ∈ L, c.username ≠ m.username) → m.msgScope = SENDERONLY →
        sendMessages.deliver L m = []) := by
  refine ⟨?_, deliver_senderOnly L m, deliver_allExceptSender L m, ?_, ?_⟩
  · intro hall
    apply deliver_all L m <;> rw [hall] <;> decide
  · rintro hu ⟨c, hc, hcm⟩
    have hone : (L.filter (fun x => x.username = m.username)).length = 1 := by
      rw [← hcm, filter_username_eq_singleton L c hu hc]
      rfl
    constructor
    · intro hs
      rw [deliver_senderOnly L m hs, hone]
    · intro hs
      rw [deliver_allExceptSender L m hs, filter_username_ne_length, hone]
  · intro hnone hs
    rw [deliver_senderOnly L m hs, List.filter_eq_nil_iff]
    intro x hx
    simpa using hnone x hx

/-- C4, at a concrete map: among amy, bob and zoe a `SENDERONLY` message for
bob is written to bob alone. -/
theorem router_scope_correct_witness :
    sendMessages.deliver
        [⟨0, "amy".toList⟩, ⟨1, "bob".toList⟩, ⟨2, "zoe".toList⟩]
        ⟨"bob".toList, SENDERONLY, "hi".toList⟩
      = [⟨1, "bob".toList⟩]
    ∧ (sendMessages.deliver
        [⟨0, "amy".toList⟩, ⟨1, "bob".toList⟩, ⟨2, "zoe".toList⟩]
        ⟨"bob".toList, ALLEXCEPTSENDER, "hi".toList⟩).length = 3 - 1 :=
  ⟨((router_scope_correct _ _).2.1 rfl).trans (by decide),
   ((router_scope_correct
        [⟨0, "amy".toList⟩, ⟨1, "bob".toList⟩, ⟨2, "zoe".toList⟩]
        ⟨"bob".toList, ALLEXCEPTSENDER, "hi".toList⟩).2.2.2.1 (by decide)
      ⟨⟨1, "bob".toList⟩, by decide, rfl⟩).2 rfl⟩

/-- C5 as stated fails. With the two-byte whisper symbol `@@`, unique
usernames and amy, bob and zoe live, amy sends `@@bob hi`: the symbol, the
target `bob`, a space and the body `hi`. Bob is live, yet the one message
produced is the failure notice for `@bob`, and the router writes it to amy
alone: bob receives nothing. -/
theorem whisper_to_live_target_lost :
    uniqueUsernames [⟨0, "amy".toList⟩, ⟨1, "bob".toList⟩, ⟨2, "zoe".toList⟩]
    ∧ incomingOf twoByteWhisperConf "@@bob hi".toList
      = twoByteWhisperConf.WhisperSymbol ++ "bob".toList ++ " ".toList ++ "hi".toList
    ∧ HasPrefix (incomingOf twoByteWhisperConf "@@bob hi".toList)
        twoByteWhisperConf.ChanOpSymbol = false
    ∧ (∃ x ∈ [(⟨0, "amy".toList⟩ : client), ⟨1, "bob".toList⟩, ⟨2, "zoe".toList⟩],
        x.username = "bob".toList)
    ∧ handleClient.line sampleHost
        ⟨twoByteWhisperConf, [⟨0, "amy".toList⟩, ⟨1, "bob".toList⟩, ⟨2, "zoe".toList⟩], 3⟩
        ⟨0, "amy".toList⟩ "@@bob hi".toList
      = some (⟨twoByteWhisperConf,
            [⟨0, "amy".toList⟩, ⟨1, "bob".toList⟩, ⟨2, "zoe".toList⟩], 3⟩,
          [⟨"amy".toList, SENDERONLY, "@bob is not here\r\n".toList⟩])
    ∧ sendMessages.deliver [⟨0, "amy".toList⟩, ⟨1, "bob".toList⟩, ⟨2, "zoe".toList⟩]
        ⟨"amy".toList, SENDERONLY, "@bob is not here\r\n".toList⟩
      = [⟨0, "amy".toList⟩] := by
  decide

/-- C5, amended. Whisper routing for a whisper symbol of one byte other than
the space: with unique usernames, a live sender `a` and a line that (after the
terminators are removed) is the symbol, a non-empty target `t` without a
space, a space and a non-empty body `b`, and does not start with the command
symbol: if a live session `x` holds `t`, exactly one message is produced, its
text is the whisper template applied to `a`'s username and `b`, and the router
writes it to `x` and to nobody else; if no live session holds `t`, exactly one
failure notice naming `t` is produced and the router writes it to `a` only.
The server state is unchanged in both cases. -/
theorem whisper_routing (h : Host) (s : ChatServer) (a : client) (text : Str) (w : Char)
    (t b : Str) (hu : uniqueUsernames s.clients) (ha : a ∈ s.clients)
    (hW : s.conf.WhisperSymbol = [w]) (hwsp : w ≠ ' ')
    (hcmd : HasPrefix (incomingOf s.conf text) s.conf.ChanOpSymbol = false)
    (hline : incomingOf s.conf text = s.conf.WhisperSymbol ++ t ++ " ".toList ++ b)
    (ht : t ≠ []) (hts : ' ' ∉ t) (hb : b ≠ []) :
    (∀ x ∈ s.clients, x.username = t →
        handleClient.line h s a text =
          some (s, [newMessage s.conf t SENDERONLY
            (h.Sprintf s.conf.WhisperMsg [a.username, b])])
        ∧ sendMessages.deliver s.clients
            (newMessage s.conf t SENDERONLY (h.Sprintf s.conf.WhisperMsg [a.username, b]))
          = [x])
    ∧ ((∀ x ∈ s.clients, x.username ≠ t) →
        handleClient.line h s a text =
          some (s, [newMessage s.conf a.username SENDERONLY
            (h.Sprintf s.conf.FailedwhisperMsg [t])])
        ∧ sendMessages.deliver s.clients
            (newMessage s.conf a.username SENDERONLY (h.Sprintf s.conf.FailedwhisperMsg [t]))
          = [a]) := by
  have hline1 : incomingOf s.conf text = w :: (t ++ ' ' :: b) := by
    rw [hline, hW]
    simp
  have hw : HasPrefix (incomingOf s.conf text) s.conf.WhisperSymbol = true := by
    rw [hline1, hW]
    simp [HasPrefix]
  have hl := handleLine_whisper h s.conf s.clients a text w t b hcmd hw hline1 hwsp ht hts hb
  constructor
  · intro x hx hxt
    have hin : (usernameInUse s.clients t).1 = true :=
      (usernameInUse_iff _ _).mpr ⟨x, hx, hxt⟩
    rw [if_pos hin] at hl
    refine ⟨by rw [handleClient.line, hl], ?_⟩
    rw [deliver_senderOnly _ _ rfl]
    have := filter_username_eq_singleton s.clients x hu hx
    rw [hxt] at this
    exact this
  · intro hnone
    have hin : ¬ (usernameInUse s.clients t).1 = true := by
      rw [usernameInUse_iff]
      rintro ⟨x, hx, hxt⟩
      exact hnone x hx hxt
    rw [if_neg hin] at hl
    refine ⟨by rw [handleClient.line, hl], ?_⟩
    rw [deliver_senderOnly _ _ rfl]
    exact filter_username_eq_singleton s.clients a hu ha

/-- C5 amended, at a concrete map: amy whispers `hi` to the live bob, and the one
message goes to bob alone; amy whispers to the absent carl, and the one
failure notice goes to amy alone. -/
theorem whisper_routing_witness :
    (handleClient.line sampleHost
        ⟨sampleConf, [⟨0, "amy".toList⟩, ⟨1, "bob".toList⟩, ⟨2, "zoe".toList⟩], 3⟩
        ⟨0, "amy".toList⟩ "@bob hi".toList
      = some (⟨sampleConf, [⟨0, "amy".toList⟩, ⟨1, "bob".toList⟩, ⟨2, "zoe".toList⟩], 3⟩,
          [⟨"bob".toList, SENDERONLY, "amy whispers: hi\r\n".toList⟩])
      ∧ sendMessages.deliver [⟨0, "amy".toList⟩, ⟨1, "bob".toList⟩, ⟨2, "zoe".toList⟩]
          ⟨"bob".toList, SENDERONLY, "amy whispers: hi\r\n".toList⟩
        = [⟨1, "bob".toList⟩])
    ∧ (handleClient.line sampleHost
        ⟨sampleConf, [⟨0, "amy".toList⟩, ⟨1, "bob".toList⟩, ⟨2, "zoe".toList⟩], 3⟩
        ⟨0, "amy".toList⟩ "@carl hi".toList
      = some (⟨sampleConf, [⟨0, "amy".toList⟩, ⟨1, "bob".toList⟩, ⟨2, "zoe".toList⟩], 3⟩,
          [⟨"amy".toList, SENDERONLY, "carl is not here\r\n".toList⟩])
      ∧ sendMessages.deliver [⟨0, "amy".toList⟩, ⟨1, "bob".toList⟩, ⟨2, "zoe".toList⟩]
          ⟨"amy".toList, SENDERONLY, "carl is not here\r\n".toList⟩
        = [⟨0, "amy".toList⟩]) :=
  ⟨(whisper_routing sampleHost
      ⟨sampleConf, [⟨0, "amy".toList⟩, ⟨1, "bob".toList⟩, ⟨2, "zoe".toList⟩], 3⟩
      ⟨0, "amy".toList⟩ "@bob hi".toList '@' "bob".toList "hi".toList
      (by decide) (by decide) rfl (by decide) (by decide) (by decide) (by decide)
      (by decide) (by decide)).1 ⟨1, "bob".toList⟩ (by decide) rfl,
   (whisper_routing sampleHost
      ⟨sampleConf, [⟨0, "amy".toList⟩, ⟨1, "bob".toList⟩, ⟨2, "zoe".toList⟩], 3⟩
      ⟨0, "amy".toList⟩ "@carl hi".toList '@' "carl".toList "hi".toList
      (by decide) (by decide) rfl (by decide) (by decide) (by decide) (by decide)
      (by decide) (by decide)).2 (by decide)⟩

/-- C6. User-list format: for every list of usernames, in any order and also
when empty, `formatUserList` returns no error and the string `UserList:{`, the
names sorted ascending and joined by `", "`, `} Total:[`, the decimal length
and `]`; the sorted names are in ascending order and are a permutation of the
input, so a snapshot listing the same names in another order gives the same
result. -/
theorem formatUserList_spec (us : List Str) :
    formatUserList us =
        ("UserList:\x7b".toList ++ List.intercalate ", ".toList (sortStrings us)
            ++ "\x7d Total:[".toList ++ Itoa us.length ++ "]".toList, none)
    ∧ Ascending (sortStrings us)
    ∧ (sortStrings us).Perm us
    ∧ ∀ vs : List Str, us.Perm vs → formatUserList vs = formatUserList us := by
  have hfmt : ∀ l : List Str, formatUserList l =
      ("UserList:\x7b".toList ++ List.intercalate ", ".toList (sortStrings l)
          ++ "\x7d Total:[".toList ++ Itoa l.length ++ "]".toList, none) := by
    intro l
    unfold formatUserList
    simp only [foldl_append_names]
    cases hs : sortStrings l with
    | nil =>
      have : TrimSuffix ("UserList:\x7b".toList ++ ([] : List Str).flatten) ", ".toList
          = "UserList:\x7b".toList := by decide
      simp only [List.map_nil, this]
      simp [List.intercalate]
    | cons x xs =>
      have e : "UserList:\x7b".toList ++ (List.intercalate ", ".toList (x :: xs) ++ ", ".toList)
          = ("UserList:\x7b".toList ++ List.intercalate ", ".toList (x :: xs)) ++ ", ".toList :=
        (List.append_assoc _ _ _).symm
      rw [flatten_map_append_sep, e, trimSuffix_append]
      simp [List.append_assoc]
  refine ⟨hfmt us, sortStrings_ascending us, sortStrings_perm us, ?_⟩
  intro vs hp
  rw [hfmt vs, hfmt us, sortStrings_of_perm vs us hp.symm, hp.length_eq]

/-- C6, at the concrete snapshot bob, amy, zoe, and at the same names in
another order. -/
theorem formatUserList_spec_witness :
    formatUserList ["bob".toList, "amy".toList, "zoe".toList]
      = ("UserList:\x7bamy, bob, zoe\x7d Total:[3]".toList, none)
    ∧ formatUserList ["zoe".toList, "bob".toList, "amy".toList]
      = formatUserList ["bob".toList, "amy".toList, "zoe".toList] :=
  ⟨(formatUserList_spec ["bob".toList, "amy".toList, "zoe".toList]).1.trans (by decide),
   (formatUserList_spec ["bob".toList, "amy".toList, "zoe".toList]).2.2.2
      ["zoe".toList, "bob".toList, "amy".toList] (by decide)⟩

/-- C7 as stated fails. A second leave request for amy, made when she is no
longer in the map, emits a second leave broadcast. -/
theorem second_leave_broadcasts_again :
    (sendMessages.delete sampleHost ⟨sampleConf, [⟨0, "amy".toList⟩], 1⟩ ⟨0, "amy".toList⟩).1
      = ⟨sampleConf, [], 1⟩
    ∧ sendMessages.delete sampleHost ⟨sampleConf, [], 1⟩ ⟨0, "amy".toList⟩
      = (⟨sampleConf, [], 1⟩,
          [⟨"amy".toList, ALL, "amy has disconnected\r\n".toList⟩]) := by
  decide

/-- C7, amended. Each leave request for `c` puts exactly one `ALL`-scope leave
notice on the message channel, whether or not `c` is still in the map. The
first request removes `c` from the map; the second, made when `c` is absent,
leaves the server state unchanged but emits the same notice again, so two
requests make one removal and two broadcasts. -/
theorem leave_twice (h : Host) (s : ChatServer) (c : client) :
    let notice := newMessage s.conf c.username ALL (h.Sprintf s.conf.HasDisconnectedMsg [c.username])
    let first := sendMessages.delete h s c
    let second := sendMessages.delete h first.1 c
    first.2 = [notice]
    ∧ (∀ x, x ∈ first.1.clients ↔ x ∈ s.clients ∧ x.conn ≠ c.conn)
    ∧ first.1.clientCounter = s.clientCounter ∧ first.1.conf = s.conf
    ∧ second.1 = first.1
    ∧ second.2 = [notice] := by
  have hidem : deleteClient (deleteClient s.clients c) c = deleteClient s.clients c := by
    simp [deleteClient, List.filter_filter]
  refine ⟨rfl, ?_, rfl, rfl, ?_, rfl⟩
  · intro x
    simp [sendMessages.delete, deleteClient, List.mem_filter]
  · simp [sendMessages.delete, hidem]

/-- C8. Leave frees the username: with unique usernames, when the live session
`c` holding `u` sends `/bye` the map afterwards holds exactly the previous
sessions other than `c` (those of another connection), exactly one `ALL`-scope leave notice announcing `u` is
emitted, `usernameInUse(u)` is false, and a later `/username` request of any
remaining session for `u` passes the in-use check: it is accepted whenever `u`
is not empty and does not contain the command symbol. -/
theorem leave_frees_username (h : Host) (s : ChatServer) (c : client) (text : Str)
    (rest : List Str) (hu : uniqueUsernames s.clients) (hc : c ∈ s.clients)
    (hpre : HasPrefix (incomingOf s.conf text) s.conf.ChanOpSymbol = true)
    (hcmd : Split (incomingOf s.conf text) ' ' = "/bye".toList :: rest) :
    handleClient.line h s c text =
        some ({ s with clients := deleteClient s.clients c },
          [newMessage s.conf c.username ALL
            (h.Sprintf s.conf.HasDisconnectedMsg [c.username])])
    ∧ (∀ x, x ∈ deleteClient s.clients c ↔ x ∈ s.clients ∧ x.conn ≠ c.conn)
    ∧ (usernameInUse (deleteClient s.clients c) c.username).1 = false
    ∧ ∀ (c1 : client) (text1 arg1 : Str) (rest1 : List Str),
        c1 ∈ deleteClient s.clients c →
        HasPrefix (incomingOf s.conf text1) s.conf.ChanOpSymbol = true →
        Split (incomingOf s.conf text1) ' ' = "/username".toList :: arg1 :: rest1 →
        requestedName s.conf arg1 = c.username →
        c.username ≠ [] → ¬ s.conf.ChanOpSymbol <:+: c.username →
        handleClient.line h { s with clients := deleteClient s.clients c } c1 text1 =
          some ({ s with clients := setUsername (deleteClient s.clients c) c1.conn c.username },
            [newMessage s.conf c.username ALL
              (h.Sprintf s.conf.UsernameMsg [c1.username, c.username])]) := by
  have hname : ∀ x ∈ s.clients, x.username = c.username → x = c := by
    intro x hx hxc
    have h1 := filter_username_eq_singleton s.clients c hu hc
    have h2 : x ∈ s.clients.filter (fun y => y.username = c.username) := by
      simp [List.mem_filter, hx, hxc]
    rw [h1] at h2
    simpa using h2
  have hfree : ∀ x ∈ deleteClient s.clients c, x.username ≠ c.username := by
    intro x hx hxc
    simp only [deleteClient, List.mem_filter, decide_eq_true_eq] at hx
    exact hx.2 (by rw [hname x hx.1 hxc])
  refine ⟨?_, ?_, (usernameInUse_false_iff _ _).mpr hfree, ?_⟩
  · rw [handleClient.line, handleLine_bye h s.conf s.clients c text rest hpre hcmd]
    rfl
  · intro x
    simp only [deleteClient, List.mem_filter, decide_eq_true_eq]
  · intro c1 text1 arg1 rest1 _ hpre1 hcmd1 hreq hne hsym
    have hok : ¬ renameRejected s.conf (deleteClient s.clients c) (requestedName s.conf arg1) := by
      rw [hreq]
      rintro (⟨x, hx, hxc⟩ | e | e)
      · exact hfree x hx hxc
      · exact hne e
      · exact hsym e
    have := handleClient_line_renamed h { s with clients := deleteClient s.clients c } c1 text1
      arg1 rest1 hpre1 hcmd1 hok
    rw [this, hreq]

/-- C8, at a concrete map: amy says `/bye`; bob remains, one leave notice
names amy, the name `amy` is no longer in use, and bob may take it. -/
theorem leave_frees_username_witness :
    handleClient.line sampleHost
        ⟨sampleConf, [⟨0, "amy".toList⟩, ⟨1, "bob".toList⟩], 2⟩ ⟨0, "amy".toList⟩
        "/bye".toList
      = some (⟨sampleConf, [⟨1, "bob".toList⟩], 2⟩,
          [⟨"amy".toList, ALL, "amy has disconnected\r\n".toList⟩])
    ∧ (usernameInUse [⟨1, "bob".toList⟩] "amy".toList).1 = false
    ∧ handleClient.line sampleHost ⟨sampleConf, [⟨1, "bob".toList⟩], 2⟩ ⟨1, "bob".toList⟩
        "/username amy".toList
      = some (⟨sampleConf, [⟨1, "amy".toList⟩], 2⟩,
          [⟨"amy".toList, ALL, "bob is now amy\r\n".toList⟩]) :=
  have key := leave_frees_username sampleHost
    ⟨sampleConf, [⟨0, "amy".toList⟩, ⟨1, "bob".toList⟩], 2⟩ ⟨0, "amy".toList⟩
    "/bye".toList [] (by decide) (by decide) (by decide) (by decide)
  ⟨key.1.trans (by decide), key.2.2.1,
    (key.2.2.2 ⟨1, "bob".toList⟩ "/username amy".toList "amy".toList [] (by decide)
      (by decide) (by decide) (by decide) (by decide) (by decide)).trans (by decide)⟩

/-- C9 fails on the code. The line `/username` with nothing after it is split
into the single token `/username`, and the index expression `commands[1]` is
out of range: the pass through the loop panics instead of routing a message. -/
theorem username_without_argument_panics :
    Split "/username".toList ' ' = ["/username".toList]
    ∧ handleLine sampleHost sampleConf [⟨0, "amy".toList⟩] ⟨0, "amy".toList⟩
        "/username".toList = none
    ∧ handleClient.line sampleHost ⟨sampleConf, [⟨0, "amy".toList⟩], 1⟩ ⟨0, "amy".toList⟩
        "/username".toList = none := by
  decide

/-- C10 as stated fails. With the two-byte whisper symbol `@@` the line
`@@bob hi` is the symbol, the target `bob`, a space and the body `hi`, and
bob is live; but the interpreter cuts the target after the first byte only,
looks up `@bob`, and reports that `@bob` is not here. -/
theorem whisper_symbol_of_two_bytes :
    incomingOf twoByteWhisperConf "@@bob hi".toList
      = twoByteWhisperConf.WhisperSymbol ++ "bob".toList ++ " ".toList ++ "hi".toList
    ∧ HasPrefix (incomingOf twoByteWhisperConf "@@bob hi".toList)
        twoByteWhisperConf.ChanOpSymbol = false
    ∧ handleLine sampleHost twoByteWhisperConf [⟨0, "amy".toList⟩, ⟨1, "bob".toList⟩]
        ⟨0, "amy".toList⟩ "@@bob hi".toList
      = some (Outcome.routed none ⟨"amy".toList, SENDERONLY, "@bob is not here\r\n".toList⟩)
    ∧ (usernameInUse [⟨0, "amy".toList⟩, ⟨1, "bob".toList⟩] "bob".toList).1 = true := by
  decide

/-- C10, amended. For a whisper symbol of one byte other than the space, a
non-empty target `t` without a space and a non-empty body `b`, when the line
(after the terminators are removed) is the symbol, `t`, a space and `b` and
does not start with the command symbol, the interpreter takes the whisper
branch, looks up exactly `t` and uses exactly `b` as body. And for every
whisper symbol, a line that starts with it, does not start with the command
symbol and fails the shape check (first space not after position 1, or length
not greater than 3) yields a `SENDERONLY` unrecognised-command notice that
echoes the line. -/
theorem whisper_parsing (h : Host) (conf : Configuration) (clients : List client)
    (c : client) (text : Str)
    (hcmd : HasPrefix (incomingOf conf text) conf.ChanOpSymbol = false) :
    (∀ (w : Char) (t b : Str), conf.WhisperSymbol = [w] → w ≠ ' ' → t ≠ [] → ' ' ∉ t →
        b ≠ [] → incomingOf conf text = conf.WhisperSymbol ++ t ++ " ".toList ++ b →
        handleLine h conf clients c text =
          if (usernameInUse clients t).1 = true then
            some (Outcome.routed none
              (newMessage conf t SENDERONLY (h.Sprintf conf.WhisperMsg [c.username, b])))
          else
            some (Outcome.routed none
              (newMessage conf c.username SENDERONLY (h.Sprintf conf.FailedwhisperMsg [t]))))
    ∧ (HasPrefix (incomingOf conf text) conf.WhisperSymbol = true →
        ¬ (Index (incomingOf conf text) " ".toList > 1 ∧ (incomingOf conf text).length > 3) →
        handleLine h conf clients c text =
          some (Outcome.routed none
            (newMessage conf c.username SENDERONLY
              (h.Sprintf conf.UnrecognisedCommandMsg [c.username, incomingOf conf text])))) := by
  constructor
  · intro w t b hW hwsp ht hts hb hline
    have hline' : incomingOf conf text = w :: (t ++ ' ' :: b) := by
      rw [hline, hW]
      simp
    have hw : HasPrefix (incomingOf conf text) conf.WhisperSymbol = true := by
      rw [hline', hW]
      simp [HasPrefix]
    exact handleLine_whisper h conf clients c text w t b hcmd hw hline' hwsp ht hts hb
  · intro hw hshape
    unfold handleLine
    simp only [hcmd, hw, if_true, if_false, Bool.false_eq_true]
    rw [if_neg hshape]

/-- C10 amended, at concrete lines: `@bob hi` is parsed into the target `bob`
and the body `hi`; `@b` fails the shape check and is echoed back. -/
theorem whisper_parsing_witness :
    handleLine sampleHost sampleConf [⟨0, "amy".toList⟩, ⟨1, "bob".toList⟩]
        ⟨0, "amy".toList⟩ "@bob hi".toList
      = some (Outcome.routed none ⟨"bob".toList, SENDERONLY, "amy whispers: hi\r\n".toList⟩)
    ∧ handleLine sampleHost sampleConf [⟨0, "amy".toList⟩, ⟨1, "bob".toList⟩]
        ⟨0, "amy".toList⟩ "@b".toList
      = some (Outcome.routed none ⟨"amy".toList, SENDERONLY, "amy: unrecognised @b\r\n".toList⟩) :=
  ⟨((whisper_parsing sampleHost sampleConf [⟨0, "amy".toList⟩, ⟨1, "bob".toList⟩]
      ⟨0, "amy".toList⟩ "@bob hi".toList (by decide)).1 '@' "bob".toList "hi".toList rfl
      (by decide) (by decide) (by decide) (by decide) (by decide)).trans (by decide),
   (whisper_parsing sampleHost sampleConf [⟨0, "amy".toList⟩, ⟨1, "bob".toList⟩]
      ⟨0, "amy".toList⟩ "@b".toList (by decide)).2 (by decide) (by decide)⟩

end Chat
